import Mathlib

/-!
Shallow embedding of the `caterpillar` Chrome-App-to-PWA converter
(src/caterpillar.py) and proofs about its conversion pipeline.

Modelling conventions:
- File trees are lists of relative path strings (an `os.walk` over the output
  directory enumerates exactly the relative paths of the files it contains).
- The external collaborators `chrome_app.apis` (the API scanner) and
  `chrome_app.manifest` (legacy manifest loading/verification) are not part of
  the translated source; they enter as abstract parameters (the detected API
  list, a per-line detector function, and success booleans for manifest
  loading and verification).
- I/O side effects (file copies and writes) are recorded as the list of
  relative paths a pipeline stage adds or rewrites.
- HTML documents are modelled as an optional head and an optional body, each a
  flat list of tags; `soup.head` / `soup.body` being `None` (and the resulting
  `AttributeError`) is modelled by `Option`, and `soup.body.script` (the first
  script descendant) by the first tag of the body list whose name is
  `"script"`.
-/

namespace Caterpillar

/-- Chrome APIs with polyfills available (module constant `POLYFILLS`). -/
def POLYFILLS : List String := ["tts"]

/-- Modelled from the spec: `chrome_app.manifest.MANIFEST_FILENAME`, the legacy
manifest file at the bundle root, is defined in the external `chrome_app`
package; the JSON legacy manifest filename. Its exact value is irrelevant to
every claim below. -/
def CA_MANIFEST_FILENAME : String := "manifest.json"

/-- Target web-app manifest filename. -/
def PWA_MANIFEST_FILENAME : String := "manifest.webmanifest"

/-- Name of the service worker registration script. -/
def REGISTER_SCRIPT_NAME : String := "register_sw.js"

/-- Name of the main service worker script. -/
def SW_SCRIPT_NAME : String := "sw.js"

/-- Name of the service worker static script. -/
def SW_STATIC_SCRIPT_NAME : String := "sw_static.js"

/-- Largest number that the cache version can be. -/
def MAX_CACHE_VERSION : Nat := 1000000

/-- What the converter is called. -/
def CONVERTER_NAME : String := "caterpillar"

/-- Path to a boilerplate file relative to the app root
(`relative_boilerplate_file_path`). -/
def relative_boilerplate_file_path (filename : String) : String :=
  CONVERTER_NAME ++ "/" ++ filename

/-- Filename associated with an API polyfill (`polyfill_filename`). -/
def polyfill_filename (api : String) : String :=
  api ++ ".polyfill.js"

/-- Boolean model of Python's `str.endswith`: the extension's characters are a
suffix of the path's characters. -/
def string_ends_with (p ext : String) : Bool :=
  List.isSuffixOf ext.data p.data

/-- Executable lexicographic comparison of character lists (the order Python's
`list.sort()` uses on strings). -/
def lexLeChars : List Char → List Char → Bool
  | [], _ => true
  | _ :: _, [] => false
  | a :: as, b :: bs =>
    if a < b then true
    else if b < a then false
    else lexLeChars as bs

/-- Executable lexicographic `≤` on strings. -/
def string_le (a b : String) : Bool :=
  lexLeChars a.data b.data

/-- Lexicographic string sort, modelling Python's `list.sort()` on strings. -/
def sortStrings (l : List String) : List String :=
  l.insertionSort (fun a b => string_le a b = true)

/-- Pure core of `polyfill_apis`: partition the detected APIs into those with
a polyfill (copied into the boilerplate directory, modelled separately by
`polyfill_paths`) and those without, both sorted.  The source builds the two
lists with a loop over `apis` appending to `successful` / `unsuccessful`
according to membership in `POLYFILLS`, then sorts both. -/
def polyfill_apis (apis : List String) : List String × List String :=
  let successful := apis.filter (fun api => decide (api ∈ POLYFILLS))
  let unsuccessful := apis.filter (fun api => decide (api ∉ POLYFILLS))
  (sortStrings successful, sortStrings unsuccessful)

/-- Relative paths of the polyfill files `polyfill_apis` copies into the
boilerplate directory (`shutil.copyfile` to `<dir>/<api>.polyfill.js`, with
`dir` the boilerplate directory `caterpillar/`). -/
def polyfill_paths (apis : List String) : List String :=
  (polyfill_apis apis).1.map
    (fun api => relative_boilerplate_file_path (polyfill_filename api))

/-- Legacy Chrome App manifest: must contain `name`; optional keys modelled as
`Option` fields.  `icons` is an association list from pixel-dimension key to
icon path, in dictionary iteration order. -/
structure LegacyManifest where
  name : String
  short_name : Option String
  default_locale : Option String
  icons : Option (List (String × String))
  description : Option String
  author : Option String
  deriving DecidableEq

/-- Conversion configuration; the core transform only reads `start_url`. -/
structure ConversionConfig where
  start_url : String
  deriving DecidableEq

/-- One entry of the target manifest's `icons` sequence. -/
structure PwaIcon where
  src : String
  sizes : String
  deriving DecidableEq

/-- Target progressive-web-app manifest produced by `ca_to_pwa_manifest`. -/
structure PwaManifest where
  name : String
  short_name : String
  lang : String
  splash_screens : List String
  display : String
  orientation : String
  start_url : String
  theme_color : String
  background_color : String
  related_applications : List String
  prefer_related_applications : Bool
  icons : List PwaIcon
  deriving DecidableEq

/-- Translation of `ca_to_pwa_manifest`, field for field: `manifest.get(k, d)`
becomes `Option.getD`, and the `icons` loop becomes a map over the
association list. -/
def ca_to_pwa_manifest (manifest : LegacyManifest) (config : ConversionConfig) :
    PwaManifest :=
  { name := manifest.name
    short_name := manifest.short_name.getD manifest.name
    lang := manifest.default_locale.getD "en"
    splash_screens := []
    display := "minimal-ui"
    orientation := "any"
    start_url := config.start_url
    theme_color := "white"
    background_color := "white"
    related_applications := []
    prefer_related_applications := false
    icons :=
      match manifest.icons with
      | some entries =>
        entries.map (fun dp => { src := dp.2, sizes := dp.1 ++ "x" ++ dp.1 })
      | none => [] }

/-- Result of `setup_output_dir`'s `copytree` + manifest removal: the output
tree starts as the input tree minus the legacy manifest file. -/
def tree_copied (inputFiles : List String) : List String :=
  inputFiles.filter (fun f => !(f == CA_MANIFEST_FILENAME))

/-- Translation of `setup_output_dir` over an abstract filesystem: `force`
first removes any existing output tree (`shutil.rmtree`), otherwise an
existing output directory raises `ValueError`; on success the output tree is
the copied input tree minus the legacy manifest. -/
def setup_output_dir (inputFiles : List String) (outputExists force : Bool) :
    Except String (List String) :=
  if force then Except.ok (tree_copied inputFiles)
  else if outputExists then Except.error "Output directory already exists."
  else Except.ok (tree_copied inputFiles)

/-- An HTML tag: element name plus attribute association list (the only tag
data `inject_tags` creates or inspects). -/
structure Tag where
  name : String
  attrs : List (String × String)
  deriving DecidableEq

/-- An HTML document as BeautifulSoup exposes it to `inject_tags`: the head
and body element contents, each `none` when the document has no such element
(in which case the source's `soup.head` / `soup.body` is `None` and attribute
access on it raises). -/
structure HtmlDocument where
  head : Option (List Tag)
  body : Option (List Tag)
  deriving DecidableEq

/-- Predicate for `soup.body.script`: is this tag a script tag? -/
def isScriptTag (t : Tag) : Bool :=
  t.name == "script"

/-- A script tag with the given `src` attribute (`soup.new_tag('script', src=...)`). -/
def scriptTag (src : String) : Tag :=
  { name := "script", attrs := [("src", src)] }

/-- The manifest link injected into the head
(`soup.new_tag('link', rel='manifest', href=PWA_MANIFEST_FILENAME)`). -/
def manifestLinkTag : Tag :=
  { name := "link", attrs := [("rel", "manifest"), ("href", PWA_MANIFEST_FILENAME)] }

/-- Script tag referencing the staged polyfill of an API. -/
def polyfillScriptTag (api : String) : Tag :=
  scriptTag (relative_boilerplate_file_path (polyfill_filename api))

/-- Script tag injected by `inject_script_tag` for the service worker
registration script. -/
def registerScriptTag : Tag :=
  scriptTag (relative_boilerplate_file_path REGISTER_SCRIPT_NAME)

/-- A metadata tag `soup.new_tag('meta', content=value)` followed by
`meta['name'] = key`. -/
def metaNameTag (key value : String) : Tag :=
  { name := "meta", attrs := [("content", value), ("name", key)] }

/-- The encoding meta tag `soup.new_tag('meta', charset='utf-8')`. -/
def metaCharsetTag : Tag :=
  { name := "meta", attrs := [("charset", "utf-8")] }

/-- Is this tag a charset-declaring meta tag? -/
def isCharsetMeta (t : Tag) : Bool :=
  t.name == "meta" && t.attrs.any (fun kv => kv.1 == "charset")

/-- One polyfill-loop iteration of `inject_tags`: if the body has a script
tag, insert the polyfill script immediately before the first one
(`soup.body.script.insert_before`), else append it to the body. -/
def insert_polyfill_script (body : List Tag) (api : String) : List Tag :=
  let tag := polyfillScriptTag api
  if body.any isScriptTag then
    body.takeWhile (fun t => !isScriptTag t)
      ++ tag :: body.dropWhile (fun t => !isScriptTag t)
  else
    body ++ [tag]

/-- Meta tags appended to the head for manifest keys `description`, `author`,
`name` (in that order; `name` is always present in a `LegacyManifest`). -/
def meta_tags (manifest : LegacyManifest) : List Tag :=
  (match manifest.description with
    | some d => [metaNameTag "description" d]
    | none => []) ++
  (match manifest.author with
    | some a => [metaNameTag "author" a]
    | none => []) ++
  [metaNameTag "name" manifest.name]

/-- Translation of `inject_tags` (the `html_filename` argument is used only
for logging and is dropped).  In source order: append the manifest link to
the head, fold the polyfill insertion over the polyfill list, append the
registration script tag to the body, append the metadata tags to the head,
and finally insert the charset meta tag as the first head child.  A document
with no head or no body makes the source dereference `None`; this is the
`none` result. -/
def inject_tags (doc : HtmlDocument) (manifest : LegacyManifest)
    (polyfills : List String) : Option HtmlDocument :=
  match doc.head, doc.body with
  | some headTags, some bodyTags =>
    let head1 := headTags ++ [manifestLinkTag]
    let body1 := polyfills.foldl insert_polyfill_script bodyTags
    let body2 := body1 ++ [registerScriptTag]
    let head2 := head1 ++ meta_tags manifest
    let head3 := metaCharsetTag :: head2
    some { head := some head3, body := some body2 }
  | _, _ => none

/-- The TODO marker comment `'// TODO: (Caterpillar) Remove {} call.'`. -/
def todoComment (apiCall : String) : String :=
  "// TODO: (Caterpillar) Remove " ++ apiCall ++ " call."

/-- Translation of `insert_todos_into_file`, abstracted over the external
line scanner `chrome_app.apis.api_function_called` (`detect`): for each line
in order, emit the TODO comment naming the detected call before the line when
the scanner fires, and the line alone otherwise. -/
def insert_todos_into_file (detect : String → Option String)
    (lines : List String) : List String :=
  lines.flatMap (fun line =>
    match detect line with
    | some apiCall => [todoComment apiCall, line]
    | none => [line])

/-- Translation of `insert_todos_into_directory`: the directory is the list
of its files (relative path, lines); the walk rewrites exactly the files
whose name ends in `.js`. -/
def insert_todos_into_directory (detect : String → Option String)
    (files : List (String × List String)) : List (String × List String) :=
  files.map (fun file =>
    if string_ends_with file.1 ".js"
    then (file.1, insert_todos_into_file detect file.2)
    else file)

/-- Specification-side relation, following the claim's words: the output is
the input with exactly one single-line marker comment, naming the detected
call, inserted immediately before each line on which the scanner detects a
legacy-API call; every original line is preserved verbatim and in order, and
lines with no detected call are left unchanged. -/
inductive Annotated (detect : String → Option String) :
    List String → List String → Prop
  | nil : Annotated detect [] []
  | clean {line : String} {rest out : List String} :
      detect line = none → Annotated detect rest out →
      Annotated detect (line :: rest) (line :: out)
  | hit {line apiCall : String} {rest out : List String} :
      detect line = some apiCall → Annotated detect rest out →
      Annotated detect (line :: rest) (todoComment apiCall :: line :: out)

/-- JavaScript string literal for one cached file path (`'"{}"'.format(fp)`). -/
def quote_path (fp : String) : String :=
  "\"" ++ fp ++ "\""

/-- File list embedded in the generated service worker
(`generate_service_worker`): the walk over the directory yields the relative
path of every file currently in the tree, each formatted as a JavaScript
string.  (The random cache version is irrelevant to the file list and is not
modelled.) -/
def generate_service_worker_list (tree : List String) : List String :=
  tree.map quote_path

/-- Translation of `add_service_worker`: first copy the registration and
static scripts into the boilerplate directory, then generate the caching
script's file list from the tree as it stands, then write `sw.js` at the
root.  Returns (embedded file list, final tree). -/
def add_service_worker (tree : List String) : List String × List String :=
  let tree1 := tree ++
    [relative_boilerplate_file_path REGISTER_SCRIPT_NAME,
     relative_boilerplate_file_path SW_STATIC_SCRIPT_NAME]
  let swList := generate_service_worker_list tree1
  (swList, tree1 ++ [SW_SCRIPT_NAME])

/-- The output tree just before `add_service_worker` runs in `convert_app`:
the copied input tree, plus the staged polyfills, plus the written target
manifest (HTML injection and TODO insertion rewrite files in place and add
none). -/
def tree_before_sw (inputFiles apis : List String) : List String :=
  tree_copied inputFiles ++ polyfill_paths apis ++ [PWA_MANIFEST_FILENAME]

/-- File list embedded in the service worker generated by a full
`convert_app` run. -/
def convert_app_sw_list (inputFiles apis : List String) : List String :=
  (add_service_worker (tree_before_sw inputFiles apis)).1

/-- Final output tree of a full `convert_app` run. -/
def convert_app_final_tree (inputFiles apis : List String) : List String :=
  (add_service_worker (tree_before_sw inputFiles apis)).2

/-- The files the TODO pass of `convert_app` rewrites: every `.js` file in
the output tree at that point (after polyfill staging, manifest writing and
HTML injection, before the service worker stage). -/
def convert_app_todo_written (inputFiles apis : List String) : List String :=
  (tree_copied inputFiles ++ polyfill_paths apis ++ [PWA_MANIFEST_FILENAME]).filter
    (fun f => string_ends_with f ".js")

/-- Files written by the service worker stage. -/
def sw_stage_written : List String :=
  [relative_boilerplate_file_path REGISTER_SCRIPT_NAME,
   relative_boilerplate_file_path SW_STATIC_SCRIPT_NAME,
   SW_SCRIPT_NAME]

/-- The relative paths `convert_app` itself creates in the output tree (for
any input; with the fixed polyfill set, `tts` is the only possible staged
polyfill). -/
def generated_file_names : List String :=
  [PWA_MANIFEST_FILENAME,
   relative_boilerplate_file_path (polyfill_filename "tts"),
   relative_boilerplate_file_path REGISTER_SCRIPT_NAME,
   relative_boilerplate_file_path SW_STATIC_SCRIPT_NAME,
   SW_SCRIPT_NAME]

/-- Does `needle` occur as a contiguous subsequence of `hay`? -/
def hasSubstring (needle : List Char) : List Char → Bool
  | [] => needle.isEmpty
  | c :: t => List.isPrefixOf needle (c :: t) || hasSubstring needle t

/-- The output tree at the moment `generate_service_worker` enumerates it
inside `add_service_worker`: the registration and static scripts have been
copied, but `sw.js` has not yet been written. -/
def tree_at_sw_generation (inputFiles apis : List String) : List String :=
  tree_before_sw inputFiles apis ++
    [relative_boilerplate_file_path REGISTER_SCRIPT_NAME,
     relative_boilerplate_file_path SW_STATIC_SCRIPT_NAME]

/-- A path that stays inside the output tree: not absolute (no leading `/`)
and without a `..` occurrence. -/
def pathWellFormed (p : String) : Bool :=
  !(List.isPrefixOf "/".data p.data) && !(hasSubstring "..".data p.data)

/-- Pipeline stages of `convert_app`, in the order the source calls them. -/
inductive Stage
  | setup
  | polyfillStaging
  | writeManifest
  | injectHtml
  | insertTodos
  | serviceWorker
  deriving DecidableEq

/-- One pipeline stage together with the relative paths of the files it adds
or rewrites in the output tree. -/
structure StageEvent where
  stage : Stage
  written : List String
  deriving DecidableEq

/-- Control-flow and effect trace of `convert_app`: the stages that actually
run, in order, each with the files it writes.  `setup_output_dir` failure is
caught and logged, returning with nothing written; manifest loading and
verification failures (external `chrome_app.manifest`, abstracted as success
booleans) return after polyfill staging. -/
def convert_app_trace (inputFiles apis : List String) (startUrl : String)
    (outputExists force manifestOk manifestVerified : Bool) : List StageEvent :=
  match setup_output_dir inputFiles outputExists force with
  | Except.error _ => []
  | Except.ok tree0 =>
    let ev1 : StageEvent := { stage := Stage.setup, written := tree0 }
    let ev2 : StageEvent :=
      { stage := Stage.polyfillStaging, written := polyfill_paths apis }
    if manifestOk then
      if manifestVerified then
        [ev1, ev2,
         { stage := Stage.writeManifest, written := [PWA_MANIFEST_FILENAME] },
         { stage := Stage.injectHtml, written := [startUrl] },
         { stage := Stage.insertTodos,
           written := (tree0 ++ polyfill_paths apis ++ [PWA_MANIFEST_FILENAME]).filter
             (fun f => string_ends_with f ".js") },
         { stage := Stage.serviceWorker, written := sw_stage_written }]
      else [ev1, ev2]
    else [ev1, ev2]

/-! ## Theorems -/

theorem lexLeChars_iff (as : List Char) : ∀ bs : List Char,
    lexLeChars as bs = true ↔ ¬ bs < as := by
  induction as with
  | nil =>
    intro bs
    simp [lexLeChars]
  | cons a as ih =>
    intro bs
    cases bs with
    | nil =>
      have hlt : ([] : List Char) < a :: as := List.nil_lt_cons a as
      simp [lexLeChars, hlt]
    | cons b bs =>
      simp only [lexLeChars]
      rcases lt_trichotomy a b with h | h | h
      · simp only [if_pos h, true_iff]
        intro hlt
        cases hlt with
        | cons h2 => exact lt_irrefl a h
        | rel h2 => exact absurd h2 (asymm h)
      · subst h
        have hirr : ¬ a < a := lt_irrefl a
        have hc : (a :: bs < a :: as) ↔ bs < as := List.Lex.cons_iff
        simp only [if_neg hirr]
        rw [hc]
        exact ih bs
      · have hna : ¬ a < b := asymm h
        have hlt : b :: bs < a :: as := List.Lex.rel h
        simp [if_neg hna, if_pos h, hlt]

theorem string_le_iff (a b : String) : string_le a b = true ↔ a ≤ b := by
  rw [string_le, lexLeChars_iff]
  rw [show b.data = b.toList from rfl, show a.data = a.toList from rfl,
    ← String.lt_iff_toList_lt]
  exact not_lt

theorem sortStrings_sorted (l : List String) :
    List.Sorted (fun a b : String => a ≤ b) (sortStrings l) := by
  haveI : IsTotal String (fun a b => string_le a b = true) :=
    ⟨fun a b => by
      simp only [string_le_iff]
      exact le_total a b⟩
  haveI : IsTrans String (fun a b => string_le a b = true) :=
    ⟨fun a b c hab hbc => by
      rw [string_le_iff] at hab hbc ⊢
      exact le_trans hab hbc⟩
  exact (List.sorted_insertionSort _ l).imp (fun h => (string_le_iff _ _).mp h)

theorem mem_sortStrings {x : String} {l : List String} :
    x ∈ sortStrings l ↔ x ∈ l :=
  List.mem_insertionSort _

theorem mem_polyfill_successful {x : String} {apis : List String} :
    x ∈ (polyfill_apis apis).1 ↔ x ∈ apis ∧ x ∈ POLYFILLS := by
  simp [polyfill_apis, mem_sortStrings, List.mem_filter]

theorem mem_polyfill_unsuccessful {x : String} {apis : List String} :
    x ∈ (polyfill_apis apis).2 ↔ x ∈ apis ∧ x ∉ POLYFILLS := by
  simp [polyfill_apis, mem_sortStrings, List.mem_filter]

/-- Claim C4: for every input list of capability names, `polyfill_apis`
returns two sequences, successfully and unsuccessfully polyfilled, that are
each sorted lexicographically, are disjoint, and whose union is the input
capability set; a capability is successful exactly when it belongs to the
fixed polyfillable set `POLYFILLS`. -/
theorem polyfill_apis_partition_sorted (apis : List String) :
    List.Sorted (fun a b : String => a ≤ b) (polyfill_apis apis).1
    ∧ List.Sorted (fun a b : String => a ≤ b) (polyfill_apis apis).2
    ∧ (∀ x, ¬(x ∈ (polyfill_apis apis).1 ∧ x ∈ (polyfill_apis apis).2))
    ∧ (∀ x, (x ∈ (polyfill_apis apis).1 ∨ x ∈ (polyfill_apis apis).2) ↔ x ∈ apis)
    ∧ (∀ x ∈ apis, (x ∈ (polyfill_apis apis).1 ↔ x ∈ POLYFILLS)) := by
  refine ⟨sortStrings_sorted _, sortStrings_sorted _, fun x hx => ?_, fun x => ?_, fun x hx => ?_⟩
  · rw [mem_polyfill_successful, mem_polyfill_unsuccessful] at hx
    exact hx.2.2 hx.1.2
  · rw [mem_polyfill_successful, mem_polyfill_unsuccessful]
    by_cases hp : x ∈ POLYFILLS <;> simp [hp]
  · rw [mem_polyfill_successful]
    simp [hx]

/-- Witness for C4 at a concrete input. -/
theorem polyfill_apis_partition_sorted_witness :
    (("tts" ∈ (polyfill_apis ["idle", "tts"]).1 ∨ "tts" ∈ (polyfill_apis ["idle", "tts"]).2)
      ↔ "tts" ∈ ["idle", "tts"])
    ∧ ¬("idle" ∈ (polyfill_apis ["idle", "tts"]).1 ∧ "idle" ∈ (polyfill_apis ["idle", "tts"]).2) :=
  ⟨(polyfill_apis_partition_sorted ["idle", "tts"]).2.2.2.1 "tts",
   (polyfill_apis_partition_sorted ["idle", "tts"]).2.2.1 "idle"⟩

/-- Claim C5: for every legacy manifest (which, as a `LegacyManifest`,
contains the required key `name`) and every conversion configuration,
`ca_to_pwa_manifest` produces the target manifest with the documented
defaulting rules, fixed constants, and one icon record `src`/`"dxd"` per
legacy icon entry (empty when there is no `icons` key). -/
theorem ca_to_pwa_manifest_fields (manifest : LegacyManifest) (config : ConversionConfig) :
    (∀ s, manifest.short_name = some s →
      (ca_to_pwa_manifest manifest config).short_name = s)
    ∧ (manifest.short_name = none →
      (ca_to_pwa_manifest manifest config).short_name = manifest.name)
    ∧ (∀ loc, manifest.default_locale = some loc →
      (ca_to_pwa_manifest manifest config).lang = loc)
    ∧ (manifest.default_locale = none →
      (ca_to_pwa_manifest manifest config).lang = "en")
    ∧ (ca_to_pwa_manifest manifest config).display = "minimal-ui"
    ∧ (ca_to_pwa_manifest manifest config).orientation = "any"
    ∧ (ca_to_pwa_manifest manifest config).theme_color = "white"
    ∧ (ca_to_pwa_manifest manifest config).background_color = "white"
    ∧ (ca_to_pwa_manifest manifest config).splash_screens = []
    ∧ (ca_to_pwa_manifest manifest config).related_applications = []
    ∧ (ca_to_pwa_manifest manifest config).prefer_related_applications = false
    ∧ (∀ entries, manifest.icons = some entries →
      (ca_to_pwa_manifest manifest config).icons =
        entries.map (fun dp => { src := dp.2, sizes := dp.1 ++ "x" ++ dp.1 }))
    ∧ (manifest.icons = none → (ca_to_pwa_manifest manifest config).icons = [])
    ∧ (ca_to_pwa_manifest manifest config).name = manifest.name := by
  refine ⟨fun s h => ?_, fun h => ?_, fun loc h => ?_, fun h => ?_, rfl, rfl, rfl, rfl,
    rfl, rfl, rfl, fun entries h => ?_, fun h => ?_, rfl⟩ <;>
    simp [ca_to_pwa_manifest, h]

/-- Witness for C5 at a concrete manifest and configuration. -/
theorem ca_to_pwa_manifest_fields_witness :
    ((LegacyManifest.mk "App" (some "A") (some "fr") (some [("48", "i48.png")])
        (some "desc") (some "auth")).short_name = some "A"
      ∧ (ca_to_pwa_manifest
          (LegacyManifest.mk "App" (some "A") (some "fr") (some [("48", "i48.png")])
            (some "desc") (some "auth"))
          (ConversionConfig.mk "index.html")).short_name = "A")
    ∧ (ca_to_pwa_manifest
        (LegacyManifest.mk "App" (some "A") (some "fr") (some [("48", "i48.png")])
          (some "desc") (some "auth"))
        (ConversionConfig.mk "index.html")).icons = [PwaIcon.mk "i48.png" "48x48"] :=
  ⟨⟨rfl,
    (ca_to_pwa_manifest_fields
      (LegacyManifest.mk "App" (some "A") (some "fr") (some [("48", "i48.png")])
        (some "desc") (some "auth"))
      (ConversionConfig.mk "index.html")).1 "A" rfl⟩,
   by
    have h := (ca_to_pwa_manifest_fields
      (LegacyManifest.mk "App" (some "A") (some "fr") (some [("48", "i48.png")])
        (some "desc") (some "auth"))
      (ConversionConfig.mk "index.html")).2.2.2.2.2.2.2.2.2.2.2.1
      [("48", "i48.png")] rfl
    simpa using h⟩

/-- Claim C6: for every legacy manifest and every conversion configuration,
the `start_url` of the target manifest equals the configuration's
`start_url`, unconditionally. -/
theorem ca_to_pwa_manifest_start_url (manifest : LegacyManifest) (config : ConversionConfig) :
    (ca_to_pwa_manifest manifest config).start_url = config.start_url :=
  rfl

/-- Claim C10: `inject_tags` succeeds exactly on documents that have both a
head and a body element; on a document missing either, the source
dereferences `None` and fails. -/
theorem inject_tags_isSome_iff (doc : HtmlDocument) (manifest : LegacyManifest)
    (polyfills : List String) :
    (inject_tags doc manifest polyfills).isSome
      = (doc.head.isSome && doc.body.isSome) := by
  obtain ⟨dh, db⟩ := doc
  cases dh <;> cases db <;> simp [inject_tags]

theorem takeWhile_of_all {α : Type} (P : α → Bool) (l : List α)
    (h : ∀ x ∈ l, P x = true) : l.takeWhile P = l := by
  induction l with
  | nil => rfl
  | cons a l ih =>
    rw [List.takeWhile_cons, if_pos (h a (List.mem_cons_self a l))]
    rw [ih (fun x hx => h x (List.mem_cons_of_mem a hx))]

theorem dropWhile_of_all {α : Type} (P : α → Bool) (l : List α)
    (h : ∀ x ∈ l, P x = true) : l.dropWhile P = [] := by
  induction l with
  | nil => rfl
  | cons a l ih =>
    rw [List.dropWhile_cons, if_pos (h a (List.mem_cons_self a l))]
    exact ih (fun x hx => h x (List.mem_cons_of_mem a hx))

theorem takeWhile_append_of {α : Type} (P : α → Bool) (A B : List α) (x : α)
    (hA : ∀ a ∈ A, P a = true) (hx : P x = false) :
    (A ++ x :: B).takeWhile P = A := by
  induction A with
  | nil => simp [List.takeWhile_cons, hx]
  | cons a A ih =>
    rw [List.cons_append, List.takeWhile_cons,
      if_pos (hA a (List.mem_cons_self a A)), ih (fun y hy => hA y (List.mem_cons_of_mem a hy))]

theorem dropWhile_append_of {α : Type} (P : α → Bool) (A B : List α) (x : α)
    (hA : ∀ a ∈ A, P a = true) (hx : P x = false) :
    (A ++ x :: B).dropWhile P = x :: B := by
  induction A with
  | nil => simp [List.dropWhile_cons, hx]
  | cons a A ih =>
    rw [List.cons_append, List.dropWhile_cons,
      if_pos (hA a (List.mem_cons_self a A))]
    exact ih (fun y hy => hA y (List.mem_cons_of_mem a hy))

theorem isScriptTag_polyfill (api : String) :
    isScriptTag (polyfillScriptTag api) = true :=
  rfl

theorem mem_takeWhile_pred {α : Type} (P : α → Bool) (l : List α) :
    ∀ x ∈ l.takeWhile P, P x = true := by
  induction l with
  | nil =>
    intro x hx
    simp [List.takeWhile] at hx
  | cons a l ih =>
    intro x hx
    rw [List.takeWhile_cons] at hx
    by_cases h : P a = true
    · rw [if_pos h] at hx
      rcases List.mem_cons.mp hx with rfl | hx2
      · exact h
      · exact ih x hx2
    · rw [if_neg h] at hx
      simp at hx

theorem insert_polyfill_script_eq (body : List Tag) (api : String) :
    insert_polyfill_script body api =
      body.takeWhile (fun t => !isScriptTag t)
        ++ polyfillScriptTag api :: body.dropWhile (fun t => !isScriptTag t) := by
  rw [insert_polyfill_script]
  by_cases hb : body.any isScriptTag
  · simp [hb]
  · have hall : ∀ t ∈ body, (fun t => !isScriptTag t) t = true := by
      intro t ht
      simp only [Bool.not_eq_true']
      by_contra hc
      exact hb (List.any_eq_true.mpr ⟨t, ht, by simpa using hc⟩)
    rw [takeWhile_of_all _ _ hall, dropWhile_of_all _ _ hall]
    simp [hb]

theorem foldl_insert_polyfill (polyfills : List String) :
    ∀ body : List Tag,
      polyfills.foldl insert_polyfill_script body =
        body.takeWhile (fun t => !isScriptTag t)
          ++ polyfills.reverse.map polyfillScriptTag
          ++ body.dropWhile (fun t => !isScriptTag t) := by
  induction polyfills with
  | nil =>
    intro body
    simp [List.takeWhile_append_dropWhile]
  | cons p ps ih =>
    intro body
    rw [List.foldl_cons, ih, insert_polyfill_script_eq]
    have hA : ∀ t ∈ body.takeWhile (fun t => !isScriptTag t),
        (fun t => !isScriptTag t) t = true :=
      fun t ht => mem_takeWhile_pred (fun t => !isScriptTag t) body t ht
    have hx : (fun t => !isScriptTag t) (polyfillScriptTag p) = false := rfl
    rw [takeWhile_append_of _ _ _ _ hA hx, dropWhile_append_of _ _ _ _ hA hx]
    simp [List.append_assoc]

/-- Counterexample for claim C3: with two resolved polyfills `["a", "b"]` and
a body holding one pre-existing script tag, the injected polyfill tags appear
in reverse list order (`b` before `a`), not in the given list order as the
claim states, because each polyfill is inserted before the body's current
first script tag, which after the first iteration is the previously inserted
polyfill. -/
theorem polyfill_tags_inserted_in_reverse_order :
    (inject_tags (HtmlDocument.mk (some []) (some [Tag.mk "script" [("src", "app.js")]]))
        (LegacyManifest.mk "Demo" none none none none none) ["a", "b"]).bind
        HtmlDocument.body
      = some [polyfillScriptTag "b", polyfillScriptTag "a",
          Tag.mk "script" [("src", "app.js")], registerScriptTag]
    ∧ (inject_tags (HtmlDocument.mk (some []) (some [Tag.mk "script" [("src", "app.js")]]))
        (LegacyManifest.mk "Demo" none none none none none) ["a", "b"]).bind
        HtmlDocument.body
      ≠ some [polyfillScriptTag "a", polyfillScriptTag "b",
          Tag.mk "script" [("src", "app.js")], registerScriptTag] := by
  constructor
  · decide
  · decide

/-- Claim C3 (amended): for every document with a head and a body,
`inject_tags` places the polyfill script tags contiguously immediately before
the first pre-existing script tag of the body (or at the end of the body when
it has none), but in reverse list order — each polyfill is inserted before
the previously inserted one — and appends the registration script tag at the
very end of the body. -/
theorem inject_tags_body_spec (doc : HtmlDocument) (manifest : LegacyManifest)
    (polyfills : List String) (headTags bodyTags : List Tag)
    (hh : doc.head = some headTags) (hb : doc.body = some bodyTags) :
    (inject_tags doc manifest polyfills).bind HtmlDocument.body
      = some (bodyTags.takeWhile (fun t => !isScriptTag t)
          ++ polyfills.reverse.map polyfillScriptTag
          ++ bodyTags.dropWhile (fun t => !isScriptTag t)
          ++ [registerScriptTag]) := by
  obtain ⟨dh, db⟩ := doc
  simp only at hh hb
  subst hh
  subst hb
  simp [inject_tags, foldl_insert_polyfill, List.append_assoc]

/-- Witness for the amended C3 at a concrete document with one pre-existing
script tag and two polyfills. -/
theorem inject_tags_body_spec_witness :
    (HtmlDocument.mk (some []) (some [Tag.mk "script" [("src", "main.js")]])).head = some []
    ∧ (inject_tags (HtmlDocument.mk (some []) (some [Tag.mk "script" [("src", "main.js")]]))
        (LegacyManifest.mk "Demo" none none none none none) ["x", "y"]).bind
        HtmlDocument.body
      = some ([Tag.mk "script" [("src", "main.js")]].takeWhile (fun t => !isScriptTag t)
          ++ (["x", "y"] : List String).reverse.map polyfillScriptTag
          ++ [Tag.mk "script" [("src", "main.js")]].dropWhile (fun t => !isScriptTag t)
          ++ [registerScriptTag]) :=
  ⟨rfl,
   inject_tags_body_spec
     (HtmlDocument.mk (some []) (some [Tag.mk "script" [("src", "main.js")]]))
     (LegacyManifest.mk "Demo" none none none none none) ["x", "y"]
     [] [Tag.mk "script" [("src", "main.js")]] rfl rfl⟩

theorem meta_tags_no_charset (manifest : LegacyManifest) :
    (meta_tags manifest).countP isCharsetMeta = 0 := by
  rcases manifest with ⟨n, sn, dl, ic, de, au⟩
  cases de <;> cases au <;>
    simp [meta_tags, metaNameTag, isCharsetMeta, List.countP_cons, List.countP_append]

/-- Claim C7: for every HTML document with a head element (and a body, which
the source also dereferences before reaching the charset step) whose head
does not already hold a charset meta tag, `inject_tags` places exactly one
charset meta tag, as the first child of the output head. -/
theorem inject_tags_charset_meta_first (doc : HtmlDocument) (manifest : LegacyManifest)
    (polyfills : List String) (headTags bodyTags : List Tag)
    (hh : doc.head = some headTags) (hb : doc.body = some bodyTags)
    (hno : headTags.countP isCharsetMeta = 0) :
    ∃ outHead, (inject_tags doc manifest polyfills).bind HtmlDocument.head = some outHead
      ∧ outHead.head? = some metaCharsetTag
      ∧ outHead.countP isCharsetMeta = 1 := by
  obtain ⟨dh, db⟩ := doc
  simp only at hh hb
  subst hh
  subst hb
  refine ⟨metaCharsetTag :: (headTags ++ [manifestLinkTag] ++ meta_tags manifest),
    ?_, rfl, ?_⟩
  · simp [inject_tags]
  · have h1 : isCharsetMeta metaCharsetTag = true := rfl
    have h2 : isCharsetMeta manifestLinkTag = false := rfl
    simp [List.countP_cons, List.countP_append, h1, h2, hno, meta_tags_no_charset]

/-- Witness for C7 at a concrete document. -/
theorem inject_tags_charset_meta_first_witness :
    ([Tag.mk "title" []] : List Tag).countP isCharsetMeta = 0
    ∧ ∃ outHead,
        (inject_tags (HtmlDocument.mk (some [Tag.mk "title" []]) (some []))
          (LegacyManifest.mk "Demo" none none none none none) []).bind
          HtmlDocument.head = some outHead
        ∧ outHead.head? = some metaCharsetTag
        ∧ outHead.countP isCharsetMeta = 1 :=
  ⟨by decide,
   inject_tags_charset_meta_first
     (HtmlDocument.mk (some [Tag.mk "title" []]) (some []))
     (LegacyManifest.mk "Demo" none none none none none) []
     [Tag.mk "title" []] [] rfl rfl (by decide)⟩

theorem annotated_insert_todos (detect : String → Option String) (lines : List String) :
    Annotated detect lines (insert_todos_into_file detect lines) := by
  induction lines with
  | nil => exact Annotated.nil
  | cons line rest ih =>
    rw [insert_todos_into_file] at ih ⊢
    rw [List.flatMap_cons]
    cases hd : detect line with
    | none => exact Annotated.clean hd ih
    | some apiCall => exact Annotated.hit hd ih

/-- Claim C8: `insert_todos_into_file` rewrites a script file by inserting
exactly one marker comment naming the detected call immediately before each
line on which the (abstract, external) scanner detects a legacy-API call,
preserving every original line verbatim and in order — stated as the
`Annotated` relation, which transcribes the claim — and the directory walk
applies this rewrite to exactly the files whose name ends in `.js`. -/
theorem insert_todos_annotates_js_files (detect : String → Option String)
    (files : List (String × List String)) (p : String) (c : List String)
    (hmem : (p, c) ∈ files) :
    (string_ends_with p ".js" = true →
      (p, insert_todos_into_file detect c) ∈ insert_todos_into_directory detect files
      ∧ Annotated detect c (insert_todos_into_file detect c))
    ∧ (string_ends_with p ".js" = false →
      (p, c) ∈ insert_todos_into_directory detect files) := by
  constructor
  · intro hjs
    constructor
    · have h := List.mem_map_of_mem (fun file : String × List String =>
        if string_ends_with file.1 ".js"
        then (file.1, insert_todos_into_file detect file.2)
        else file) hmem
      rw [insert_todos_into_directory]
      simpa [hjs] using h
    · exact annotated_insert_todos detect c
  · intro hjs
    have h := List.mem_map_of_mem (fun file : String × List String =>
      if string_ends_with file.1 ".js"
      then (file.1, insert_todos_into_file detect file.2)
      else file) hmem
    rw [insert_todos_into_directory]
    simpa [hjs] using h

/-- Witness for C8: a concrete two-file directory with a detector that fires
on one line of the script file. -/
theorem insert_todos_annotates_js_files_witness :
    (("app.js", ["var a = 1;", "chrome.tts.speak(msg);"])
        ∈ [("app.js", ["var a = 1;", "chrome.tts.speak(msg);"]),
           ("notes.txt", ["hello"])])
    ∧ string_ends_with "app.js" ".js" = true
    ∧ ("app.js",
        insert_todos_into_file
          (fun line => if line == "chrome.tts.speak(msg);" then some "chrome.tts.speak" else none)
          ["var a = 1;", "chrome.tts.speak(msg);"])
        ∈ insert_todos_into_directory
          (fun line => if line == "chrome.tts.speak(msg);" then some "chrome.tts.speak" else none)
          [("app.js", ["var a = 1;", "chrome.tts.speak(msg);"]),
           ("notes.txt", ["hello"])]
    ∧ Annotated
        (fun line => if line == "chrome.tts.speak(msg);" then some "chrome.tts.speak" else none)
        ["var a = 1;", "chrome.tts.speak(msg);"]
        (insert_todos_into_file
          (fun line => if line == "chrome.tts.speak(msg);" then some "chrome.tts.speak" else none)
          ["var a = 1;", "chrome.tts.speak(msg);"]) := by
  refine ⟨by decide, by decide, ?_⟩
  have h := insert_todos_annotates_js_files
    (fun line => if line == "chrome.tts.speak(msg);" then some "chrome.tts.speak" else none)
    [("app.js", ["var a = 1;", "chrome.tts.speak(msg);"]), ("notes.txt", ["hello"])]
    "app.js" ["var a = 1;", "chrome.tts.speak(msg);"] (by decide)
  exact h.1 (by decide)

theorem convert_app_trace_full (inputFiles apis : List String) (startUrl : String)
    (outputExists force : Bool) (hsetup : force = true ∨ outputExists = false) :
    convert_app_trace inputFiles apis startUrl outputExists force true true =
      [StageEvent.mk Stage.setup (tree_copied inputFiles),
       StageEvent.mk Stage.polyfillStaging (polyfill_paths apis),
       StageEvent.mk Stage.writeManifest [PWA_MANIFEST_FILENAME],
       StageEvent.mk Stage.injectHtml [startUrl],
       StageEvent.mk Stage.insertTodos (convert_app_todo_written inputFiles apis),
       StageEvent.mk Stage.serviceWorker sw_stage_written] := by
  rcases hsetup with hf | ho
  · subst hf
    simp [convert_app_trace, setup_output_dir, convert_app_todo_written]
  · subst ho
    cases force <;>
      simp [convert_app_trace, setup_output_dir, convert_app_todo_written]

/-- Claim C9: if the output path already exists and overwrite is not forced,
`setup_output_dir` raises (modelled as `Except.error`, the source's
`ValueError('Output directory already exists.')`) and `convert_app` catches
it and returns before any stage writes to the output tree (the trace is
empty); if overwrite is forced, setup succeeds regardless of the existing
output — the existing tree is removed, so the resulting tree holds only the
copied input files — and the conversion proceeds. -/
theorem convert_app_aborts_on_existing_output (inputFiles apis : List String)
    (startUrl : String) (manifestOk manifestVerified : Bool) :
    setup_output_dir inputFiles true false
      = Except.error "Output directory already exists."
    ∧ convert_app_trace inputFiles apis startUrl true false manifestOk manifestVerified = []
    ∧ (∀ outputExists : Bool,
        setup_output_dir inputFiles outputExists true = Except.ok (tree_copied inputFiles))
    ∧ (∀ outputExists : Bool,
        convert_app_trace inputFiles apis startUrl outputExists true manifestOk manifestVerified
          ≠ []) := by
  refine ⟨rfl, ?_, fun outputExists => rfl, fun outputExists => ?_⟩
  · simp [convert_app_trace, setup_output_dir]
  · rw [convert_app_trace]
    cases manifestOk <;> cases manifestVerified <;>
      simp [setup_output_dir]

/-- Witness for C9 at a concrete input (the theorem's statement carries
negations; this closed instance applies it at one input). -/
theorem convert_app_aborts_on_existing_output_witness :
    convert_app_trace ["index.html", "manifest.json"] [] "index.html" true false true true = []
    ∧ setup_output_dir ["index.html", "manifest.json"] true true
      = Except.ok (tree_copied ["index.html", "manifest.json"]) :=
  ⟨(convert_app_aborts_on_existing_output ["index.html", "manifest.json"] [] "index.html"
      true true).2.1,
   (convert_app_aborts_on_existing_output ["index.html", "manifest.json"] [] "index.html"
      true true).2.2.1 true⟩

/-- Counterexample for claim C1: in a full `convert_app` run, the TODO
annotation stage (fifth) is followed by the service-worker stage (sixth),
which itself stages script files — `caterpillar/register_sw.js` is a `.js`
file written after the TODO pass and absent from the set of files the TODO
pass rewrites — so the TODO stage does not run after every other stage that
adds or modifies script files, and the staged registration and static
scripts are not subject to annotation. -/
theorem service_worker_scripts_staged_after_todo_pass :
    convert_app_trace ["index.html", "app.js", "manifest.json"] ["tts"] "index.html"
        false false true true =
      [StageEvent.mk Stage.setup ["index.html", "app.js"],
       StageEvent.mk Stage.polyfillStaging ["caterpillar/tts.polyfill.js"],
       StageEvent.mk Stage.writeManifest ["manifest.webmanifest"],
       StageEvent.mk Stage.injectHtml ["index.html"],
       StageEvent.mk Stage.insertTodos ["app.js", "caterpillar/tts.polyfill.js"],
       StageEvent.mk Stage.serviceWorker
         ["caterpillar/register_sw.js", "caterpillar/sw_static.js", "sw.js"]]
    ∧ string_ends_with "caterpillar/register_sw.js" ".js" = true
    ∧ "caterpillar/register_sw.js"
        ∉ convert_app_todo_written ["index.html", "app.js", "manifest.json"] ["tts"] := by
  refine ⟨by decide, by decide, by decide⟩

theorem mem_polyfill_paths {p : String} {apis : List String}
    (hp : p ∈ polyfill_paths apis) :
    p = relative_boilerplate_file_path (polyfill_filename "tts") := by
  rw [polyfill_paths] at hp
  rcases List.mem_map.mp hp with ⟨api, hapi, rfl⟩
  have hmem := (mem_polyfill_successful.mp hapi).2
  have : api = "tts" := by simpa [POLYFILLS] using hmem
  rw [this]

/-- Claim C1 (amended): in every completed `convert_app` run the TODO
annotation stage runs after polyfill staging, manifest writing and HTML
injection — so the staged polyfill scripts are among the files it
annotates — but before the service-worker stage, which stages the
registration and static scripts afterwards; those scripts are therefore not
subject to TODO annotation. -/
theorem todo_pass_position_in_pipeline (inputFiles apis : List String)
    (startUrl : String) (outputExists force : Bool)
    (hsetup : force = true ∨ outputExists = false)
    (hreg : relative_boilerplate_file_path REGISTER_SCRIPT_NAME ∉ inputFiles) :
    (convert_app_trace inputFiles apis startUrl outputExists force true true).map
        StageEvent.stage
      = [Stage.setup, Stage.polyfillStaging, Stage.writeManifest, Stage.injectHtml,
         Stage.insertTodos, Stage.serviceWorker]
    ∧ StageEvent.mk Stage.insertTodos (convert_app_todo_written inputFiles apis)
        ∈ convert_app_trace inputFiles apis startUrl outputExists force true true
    ∧ (∀ p ∈ polyfill_paths apis, p ∈ convert_app_todo_written inputFiles apis)
    ∧ relative_boilerplate_file_path REGISTER_SCRIPT_NAME
        ∉ convert_app_todo_written inputFiles apis
    ∧ (convert_app_trace inputFiles apis startUrl outputExists force true true).getLast?
        = some (StageEvent.mk Stage.serviceWorker sw_stage_written) := by
  rw [convert_app_trace_full inputFiles apis startUrl outputExists force hsetup]
  refine ⟨rfl, by simp, fun p hp => ?_, fun hcontra => ?_, rfl⟩
  · rw [convert_app_todo_written, List.mem_filter]
    constructor
    · simp [hp]
    · rw [mem_polyfill_paths hp]
      decide
  · rw [convert_app_todo_written, List.mem_filter] at hcontra
    rcases List.mem_append.mp hcontra.1 with h12 | h3
    · rcases List.mem_append.mp h12 with h1 | h2
      · exact hreg
          ((List.mem_filter.mp
            (show relative_boilerplate_file_path REGISTER_SCRIPT_NAME
                ∈ List.filter (fun f => !(f == CA_MANIFEST_FILENAME)) inputFiles from h1)).1)
      · exact absurd (mem_polyfill_paths h2) (by decide)
    · have heq : relative_boilerplate_file_path REGISTER_SCRIPT_NAME
          = PWA_MANIFEST_FILENAME := by simpa using h3
      exact absurd heq (by decide)

/-- Witness for the amended C1 at a concrete input. -/
theorem todo_pass_position_in_pipeline_witness :
    relative_boilerplate_file_path REGISTER_SCRIPT_NAME
      ∉ (["index.html", "app.js", "manifest.json"] : List String)
    ∧ (convert_app_trace ["index.html", "app.js", "manifest.json"] ["tts"] "index.html"
        false false true true).map StageEvent.stage
      = [Stage.setup, Stage.polyfillStaging, Stage.writeManifest, Stage.injectHtml,
         Stage.insertTodos, Stage.serviceWorker]
    ∧ relative_boilerplate_file_path REGISTER_SCRIPT_NAME
        ∉ convert_app_todo_written ["index.html", "app.js", "manifest.json"] ["tts"] :=
  ⟨by decide,
   (todo_pass_position_in_pipeline ["index.html", "app.js", "manifest.json"] ["tts"]
     "index.html" false false (Or.inr rfl) (by decide)).1,
   (todo_pass_position_in_pipeline ["index.html", "app.js", "manifest.json"] ["tts"]
     "index.html" false false (Or.inr rfl) (by decide)).2.2.2.1⟩

/-- Counterexample for claim C2: on a concrete run, the final output tree
contains `sw.js` (the caching script, written by `add_service_worker` after
the file list has been generated), but the embedded file list does not
contain its path — so the list does not contain the relative path of every
file present in the final output tree. -/
theorem sw_script_missing_from_own_cache_list :
    SW_SCRIPT_NAME ∈ convert_app_final_tree ["index.html", "manifest.json"] []
    ∧ quote_path SW_SCRIPT_NAME ∉ convert_app_sw_list ["index.html", "manifest.json"] [] := by
  refine ⟨by decide, by decide⟩

theorem eq_nil_or_singleton_of_all_eq {α : Type} {l : List α} {a : α}
    (hnd : l.Nodup) (hall : ∀ x ∈ l, x = a) : l = [] ∨ l = [a] := by
  cases l with
  | nil => exact Or.inl rfl
  | cons x xs =>
    have hx : x = a := hall x (List.mem_cons_self x xs)
    subst hx
    cases xs with
    | nil => exact Or.inr rfl
    | cons y ys =>
      have hy : y = x := hall y (by simp)
      subst hy
      exact absurd (List.mem_cons_self y ys) (List.nodup_cons.mp hnd).1

theorem polyfill_paths_nodup_cases (apis : List String) (hnd : apis.Nodup) :
    polyfill_paths apis = []
    ∨ polyfill_paths apis = [relative_boilerplate_file_path (polyfill_filename "tts")] := by
  have hperm := List.perm_insertionSort (fun a b => string_le a b = true)
    (apis.filter (fun api => decide (api ∈ POLYFILLS)))
  have hfnd : (apis.filter (fun api => decide (api ∈ POLYFILLS))).Nodup := hnd.filter _
  have hsnd : (polyfill_apis apis).1.Nodup := hperm.nodup_iff.mpr hfnd
  have hall : ∀ x ∈ (polyfill_apis apis).1, x = "tts" := by
    intro x hx
    have hmem := (mem_polyfill_successful.mp hx).2
    simpa [POLYFILLS] using hmem
  rcases eq_nil_or_singleton_of_all_eq hsnd hall with h | h
  · left
    rw [polyfill_paths, h]
    rfl
  · right
    rw [polyfill_paths, h]
    rfl

theorem tree_copied_sub {inputFiles : List String} {x : String}
    (hx : x ∈ tree_copied inputFiles) : x ∈ inputFiles :=
  (List.mem_filter.mp
    (show x ∈ List.filter (fun f => !(f == CA_MANIFEST_FILENAME)) inputFiles from hx)).1

theorem tree_copied_append_spec (inputFiles tail : List String)
    (hnd : inputFiles.Nodup)
    (hgen : ∀ p ∈ inputFiles, p ∉ generated_file_names)
    (hwf : ∀ p ∈ inputFiles, pathWellFormed p = true)
    (htail_nd : tail.Nodup)
    (htail_sub : ∀ x ∈ tail, x ∈ generated_file_names)
    (htail_wf : ∀ x ∈ tail, pathWellFormed x = true) :
    (tree_copied inputFiles ++ tail).Nodup
    ∧ (∀ p ∈ tree_copied inputFiles ++ tail, pathWellFormed p = true) := by
  constructor
  · rw [List.nodup_append]
    exact ⟨hnd.filter _, htail_nd,
      fun x hx1 hx2 => hgen x (tree_copied_sub hx1) (htail_sub x hx2)⟩
  · intro p hp
    rcases List.mem_append.mp hp with h | h
    · exact hwf p (tree_copied_sub h)
    · exact htail_wf p h

/-- Claim C2 (amended): the service-worker stage is the last stage of every
completed run, and the generated file list contains, exactly once, the
relative path of every file present in the output tree at the moment the
list is generated — that is, every file of the final tree except the caching
script `sw.js` itself, which `add_service_worker` writes only after
enumerating the tree — with no absolute paths and no paths outside the tree
root. -/
theorem service_worker_cache_list_spec (inputFiles apis : List String)
    (startUrl : String) (outputExists force : Bool)
    (hsetup : force = true ∨ outputExists = false)
    (hnd : inputFiles.Nodup) (hapis : apis.Nodup)
    (hgen : ∀ p ∈ inputFiles, p ∉ generated_file_names)
    (hwf : ∀ p ∈ inputFiles, pathWellFormed p = true) :
    convert_app_sw_list inputFiles apis
      = (tree_at_sw_generation inputFiles apis).map quote_path
    ∧ (tree_at_sw_generation inputFiles apis).Nodup
    ∧ (∀ p, p ∈ convert_app_final_tree inputFiles apis
        ↔ (p ∈ tree_at_sw_generation inputFiles apis ∨ p = SW_SCRIPT_NAME))
    ∧ SW_SCRIPT_NAME ∈ convert_app_final_tree inputFiles apis
    ∧ SW_SCRIPT_NAME ∉ tree_at_sw_generation inputFiles apis
    ∧ (∀ p ∈ tree_at_sw_generation inputFiles apis, pathWellFormed p = true)
    ∧ (convert_app_trace inputFiles apis startUrl outputExists force true true).getLast?
        = some (StageEvent.mk Stage.serviceWorker sw_stage_written) := by
  have hfinal : convert_app_final_tree inputFiles apis
      = tree_at_sw_generation inputFiles apis ++ [SW_SCRIPT_NAME] := rfl
  rcases polyfill_paths_nodup_cases apis hapis with hpp | hpp
  · have hgen_eq : tree_at_sw_generation inputFiles apis
        = tree_copied inputFiles
          ++ [PWA_MANIFEST_FILENAME,
              relative_boilerplate_file_path REGISTER_SCRIPT_NAME,
              relative_boilerplate_file_path SW_STATIC_SCRIPT_NAME] := by
      rw [tree_at_sw_generation, tree_before_sw, hpp]
      simp
    have hspec := tree_copied_append_spec inputFiles
      [PWA_MANIFEST_FILENAME,
       relative_boilerplate_file_path REGISTER_SCRIPT_NAME,
       relative_boilerplate_file_path SW_STATIC_SCRIPT_NAME]
      hnd hgen hwf (by decide) (by decide) (by decide)
    refine ⟨rfl, ?_, ?_, ?_, ?_, ?_, ?_⟩
    · rw [hgen_eq]
      exact hspec.1
    · intro p
      rw [hfinal]
      simp
    · rw [hfinal]
      simp
    · intro hcontra
      rw [hgen_eq] at hcontra
      rcases List.mem_append.mp hcontra with h | h
      · exact hgen _ (tree_copied_sub h) (by decide)
      · exact absurd h (by decide)
    · intro p hp
      rw [hgen_eq] at hp
      exact hspec.2 p hp
    · rw [convert_app_trace_full inputFiles apis startUrl outputExists force hsetup]
      rfl
  · have hgen_eq : tree_at_sw_generation inputFiles apis
        = tree_copied inputFiles
          ++ [relative_boilerplate_file_path (polyfill_filename "tts"),
              PWA_MANIFEST_FILENAME,
              relative_boilerplate_file_path REGISTER_SCRIPT_NAME,
              relative_boilerplate_file_path SW_STATIC_SCRIPT_NAME] := by
      rw [tree_at_sw_generation, tree_before_sw, hpp]
      simp
    have hspec := tree_copied_append_spec inputFiles
      [relative_boilerplate_file_path (polyfill_filename "tts"),
       PWA_MANIFEST_FILENAME,
       relative_boilerplate_file_path REGISTER_SCRIPT_NAME,
       relative_boilerplate_file_path SW_STATIC_SCRIPT_NAME]
      hnd hgen hwf (by decide) (by decide) (by decide)
    refine ⟨rfl, ?_, ?_, ?_, ?_, ?_, ?_⟩
    · rw [hgen_eq]
      exact hspec.1
    · intro p
      rw [hfinal]
      simp
    · rw [hfinal]
      simp
    · intro hcontra
      rw [hgen_eq] at hcontra
      rcases List.mem_append.mp hcontra with h | h
      · exact hgen _ (tree_copied_sub h) (by decide)
      · exact absurd h (by decide)
    · intro p hp
      rw [hgen_eq] at hp
      exact hspec.2 p hp
    · rw [convert_app_trace_full inputFiles apis startUrl outputExists force hsetup]
      rfl

/-- Witness for the amended C2 at a concrete input. -/
theorem service_worker_cache_list_spec_witness :
    (∀ p ∈ (["index.html", "manifest.json"] : List String), pathWellFormed p = true)
    ∧ convert_app_sw_list ["index.html", "manifest.json"] ["tts"]
      = (tree_at_sw_generation ["index.html", "manifest.json"] ["tts"]).map quote_path
    ∧ SW_SCRIPT_NAME ∉ tree_at_sw_generation ["index.html", "manifest.json"] ["tts"] :=
  ⟨by decide,
   (service_worker_cache_list_spec ["index.html", "manifest.json"] ["tts"] "index.html"
     false false (Or.inr rfl) (by decide) (by decide) (by decide) (by decide)).1,
   (service_worker_cache_list_spec ["index.html", "manifest.json"] ["tts"] "index.html"
     false false (Or.inr rfl) (by decide) (by decide) (by decide) (by decide)).2.2.2.2.1⟩

end Caterpillar
